import Mathlib

/-!
Verification development for the embedded-text repository.

Strings are modelled as lists of characters (`List Char`); byte positions of
the Rust code become character positions, which is faithful because the code
only ever slices at character boundaries.

The development embeds, from the source:
  - the tokenizer of src/parser.rs (`EmbeddedText.PToken`, `EmbeddedText.tokenize`);
  - the per-line layout algorithm of src/rendering/line_iter.rs
    (`EmbeddedText.process` and its helpers);
  - the interception-pipeline wrappers of src/middleware.rs and
    src/plugin/mod.rs (`EmbeddedText.MwInner`, `EmbeddedText.PluginInner`
    and their operations).

Collaborators of line_iter.rs that are not part of the source tree
(the token type with raw spans, the line cursor, the space configuration)
are modelled from the spec and marked as such in their doc comments.
-/

namespace EmbeddedText

/-! ## Tokenizer: src/parser.rs -/

/-- The non-breaking space character, `'\u{A0}'` in the source. -/
def nbsp : Char := '\u00A0'

/-- Rust's `char::is_whitespace`: the Unicode White_Space property. -/
def rustIsWhitespace (c : Char) : Bool :=
  let n := c.toNat
  ([0x9, 0xA, 0xB, 0xC, 0xD, 0x20, 0x85, 0xA0, 0x1680,
    0x2028, 0x2029, 0x202F, 0x205F, 0x3000] : List Nat).contains n
  || (0x2000 ≤ n && n ≤ 0x200A)

/-- `Parser::is_word_char` of src/parser.rs: not whitespace, or a non-breaking space. -/
def isWordChar (c : Char) : Bool :=
  !rustIsWhitespace c || c = nbsp

/-- `Parser::is_space_char` of src/parser.rs: whitespace other than newline,
carriage return and non-breaking space. -/
def isSpaceChar (c : Char) : Bool :=
  rustIsWhitespace c && !(c = '\n' || c = '\r' || c = nbsp)

/-- The `Token` enum of src/parser.rs: newline, carriage return, a counted
whitespace run, or a word borrowing its span. -/
inductive PToken where
  | newLine : PToken
  | carriageReturn : PToken
  | whitespace (count : Nat) : PToken
  | word (w : List Char) : PToken
deriving DecidableEq, Repr

/-- One step of `<Parser as Iterator>::next` of src/parser.rs.  Returns the
token, the raw span of source characters it consumed, and the remaining
input.  `none` exactly when the input is exhausted. -/
def nextToken : List Char → Option (PToken × List Char × List Char)
  | [] => none
  | c :: rest =>
    if c = '\n' then some (.newLine, [c], rest)
    else if c = '\r' then some (.carriageReturn, [c], rest)
    else if isSpaceChar c then
      some (.whitespace (1 + (rest.takeWhile isSpaceChar).length),
            c :: rest.takeWhile isSpaceChar,
            rest.dropWhile isSpaceChar)
    else
      some (.word (c :: rest.takeWhile isWordChar),
            c :: rest.takeWhile isWordChar,
            rest.dropWhile isWordChar)

/-- Fuelled driver of the tokenizer; `tokenize` supplies sufficient fuel. -/
def tokenizeAux : Nat → List Char → List (PToken × List Char)
  | 0, _ => []
  | fuel + 1, s =>
    match nextToken s with
    | none => []
    | some (t, span, rest) => (t, span) :: tokenizeAux fuel rest

/-- `Parser::parse(s).collect()` of src/parser.rs, each token paired with the
raw span of source characters it consumed. -/
def tokenize (s : List Char) : List (PToken × List Char) :=
  tokenizeAux s.length s

/-- Raw character content of a token as the round-trip claim reads it: a word
contributes its borrowed span, a newline contributes `'\n'`, a carriage return
contributes `'\r'`, and a whitespace token contributes the raw whitespace
characters it covers. -/
def rawContent : PToken × List Char → List Char
  | (.newLine, _) => ['\n']
  | (.carriageReturn, _) => ['\r']
  | (.whitespace _, span) => span
  | (.word w, _) => w

/-- What the raw span of each token covers: words carry their own span,
newline and carriage return cover the single control character, and a
whitespace token covers a non-empty run of whitespace characters whose
character count is the token's count. -/
def spanMatches : PToken → List Char → Prop
  | .newLine, span => span = ['\n']
  | .carriageReturn, span => span = ['\r']
  | .whitespace n, span => span.length = n ∧ 1 ≤ n ∧ ∀ c ∈ span, isSpaceChar c
  | .word w, span => span = w ∧ w ≠ []

/-! ## Line layout: src/rendering/line_iter.rs

The layout algorithm consumes tokens of the newer parser, which is not part
of the source tree; its token shape is determined by the spec's data model
and by how line_iter.rs consumes it. -/

/-- Modelled from the spec: the Token variant of the newer tokenizer consumed
by line_iter.rs (spec section 3) — NewLine, CarriageReturn, Whitespace with a
character count and its raw span, Tab, Word with its raw span, and Break with
the visible hyphen glyph and the invisible original span.  The ANSI escape
variant is feature-gated off in this configuration. -/
inductive Token where
  | newLine : Token
  | carriageReturn : Token
  | whitespace (count : Nat) (seq : List Char) : Token
  | tab : Token
  | word (w : List Char) : Token
  | breakTok (glyph : List Char) (original : List Char) : Token
deriving DecidableEq, Repr

/-- The `HorizontalAlignment` options used by line_iter.rs. -/
inductive HorizontalAlignment where
  | left : HorizontalAlignment
  | center : HorizontalAlignment
  | right : HorizontalAlignment
  | justified : HorizontalAlignment
deriving DecidableEq, Repr

/-- Modelled from the spec: the `LineCursor` of rendering/cursor.rs (not in
the source tree) — current horizontal pixel position, the line's pixel width
bound, and the tab pitch in pixels. -/
structure LineCursor where
  pos : Nat
  width : Nat
  tabWidth : Nat
deriving DecidableEq, Repr

/-- Whether an extra `w` pixels fit between the current position and the end
of the line. -/
def LineCursor.fitsInLine (c : LineCursor) (w : Nat) : Bool :=
  c.pos + w ≤ c.width

/-- Remaining space on the line. -/
def LineCursor.space (c : LineCursor) : Nat := c.width - c.pos

/-- Modelled from the spec: `move_cursor(delta)` returns the actually-applied
delta and whether the full requested delta fit inside the line bound
(success) or was clipped because the line is full (failure, cursor left in
place).  Result is (success flag, applied delta, updated cursor). -/
def LineCursor.moveCursor (c : LineCursor) (delta : Int) : Bool × Int × LineCursor :=
  let target : Int := (c.pos : Int) + delta
  if 0 ≤ target ∧ target ≤ (c.width : Int) then
    (true, delta, { c with pos := target.toNat })
  else if 0 ≤ delta then
    (false, (c.space : Int), c)
  else
    (false, -(c.pos : Int), c)

/-- Modelled from the spec: pixel distance from the current position to the
next multiple of the tab pitch; a full pitch when already on a boundary. -/
def LineCursor.nextTabWidth (c : LineCursor) : Nat :=
  if c.tabWidth = 0 then 0 else c.tabWidth - c.pos % c.tabWidth

/-- The `LineEndType` returned by `LineElementParser::process`. -/
inductive LineEndType where
  | newLine : LineEndType
  | carriageReturn : LineEndType
  | endOfText : LineEndType
  | lineBreak : LineEndType
deriving DecidableEq, Repr

/-- Events delivered to the `ElementHandler` of line_iter.rs: a whitespace
block, a printed character run, or a cursor movement. -/
inductive Event where
  | whitespace (count : Nat) (width : Nat) : Event
  | printed (s : List Char) (width : Nat) : Event
  | moveCursor (delta : Int) : Event
deriving DecidableEq, Repr

/-- Failure markers of the embedding: `outOfFuel` when the supplied fuel is
exhausted, `divByZero` when the source would divide by zero (a Rust panic). -/
inductive LErr where
  | outOfFuel : LErr
  | divByZero : LErr
deriving DecidableEq, Repr

/-- State of a `LineElementParser`: the committed parser, the lookahead
clone, the cursor, and the flag recording whether the line is still empty.
The two parsers are modelled as the lists of tokens they have yet to
produce. -/
structure LIState where
  parser : List Token
  lookahead : List Token
  cursor : LineCursor
  empty : Bool
deriving DecidableEq, Repr

/-- `LineElementParser::new`: the lookahead is a clone of the parser and the
line starts empty with the cursor at the left edge. -/
def initLine (width tabW : Nat) (toks : List Token) : LIState :=
  { parser := toks, lookahead := toks,
    cursor := { pos := 0, width := width, tabWidth := tabW }, empty := true }

/-- `LineElementParser::render_leading_spaces`: leading whitespace is drawn
only for left alignment. -/
def renderLeadingSpaces : HorizontalAlignment → Bool
  | .left => true
  | .center => false
  | .right => false
  | .justified => false

/-- `LineElementParser::render_trailing_spaces`: a fixed policy, always
false. -/
def renderTrailingSpaces : Bool := false

/-- `LineElementParser::next_word_width`: sum the measured widths of the
upcoming Word tokens; a Break contributes its glyph width and stops the
lookahead; any other token stops it.  `none` when no Word or Break follows
immediately. -/
def nextWordWidth (meas : List Char → Nat) : List Token → Option Nat → Option Nat
  | [], acc => acc
  | .word w :: rest, acc => nextWordWidth meas rest (some (acc.getD 0 + meas w))
  | .breakTok c _ :: _, acc => some (acc.getD 0 + meas c)
  | _ :: _, acc => acc

/-- `LineElementParser::next_word_fits`: simulate cursor movement over the
upcoming whitespace and tabs on a cloned cursor until the next Word or Break
token, and report whether that token still fits. -/
def nextWordFits (meas : List Char → Nat) (sw : Nat) :
    LineCursor → List Token → Bool
  | _, [] => false
  | cursor, t :: rest =>
    match t with
    | .word w => (cursor.moveCursor (meas w : Int)).1
    | .breakTok c _ => (cursor.moveCursor (meas c : Int)).1
    | .whitespace n _ =>
      let m := cursor.moveCursor ((n * sw : Nat) : Int)
      if m.1 then nextWordFits meas sw m.2.2 rest else false
    | .tab =>
      let m := cursor.moveCursor (cursor.nextTabWidth : Int)
      if m.1 then nextWordFits meas sw m.2.2 rest else false
    | .newLine => false
    | .carriageReturn => false

/-- `LineElementParser::longest_fitting_substr`, inner loop: walk the word's
characters accumulating width, and split at the first character that no
longer fits the line. -/
def longestFittingAux (c : LineCursor) (meas : List Char → Nat) :
    List Char → Nat → List Char × Option (List Char)
  | [], _ => ([], none)
  | ch :: rest, width =>
    let cw := meas [ch]
    if ¬ c.fitsInLine (width + cw) then ([], some (ch :: rest))
    else
      let (pre, rem) := longestFittingAux c meas rest (width + cw)
      (ch :: pre, rem)

/-- First non-breaking space split of a word: `none` when the word has no
NBSP, otherwise the characters before the first NBSP and those after it. -/
def splitNbsp : List Char → Option (List Char × List Char)
  | [] => none
  | c :: rest =>
    if c = nbsp then some ([], rest)
    else (splitNbsp rest).map (fun p => (c :: p.1, p.2))

/-- Fuelled body of `LineElementParser::process_word`: emit the printed run
before an embedded NBSP, a single space-unit whitespace event for the NBSP,
and recurse on the remainder; a word with no NBSP is one printed run. -/
def processWordAux (meas : List Char → Nat) (sw : Nat) :
    Nat → List Char → List Event
  | 0, _ => []
  | fuel + 1, w =>
    match splitNbsp w with
    | some (pre, post) =>
      (if pre ≠ [] then [.printed pre (meas pre)] else [])
      ++ [.whitespace 1 sw]
      ++ processWordAux meas sw fuel post
    | none => [.printed w (meas w)]

/-- `LineElementParser::process_word`; the recursion is bounded by the word
length. -/
def processWord (meas : List Char → Nat) (sw : Nat) (w : List Char) : List Event :=
  processWordAux meas sw (w.length + 1) w

/-- The visibility flag computed inside `draw_whitespace` and `draw_tab`:
draw a visible whitespace block when rendering leading spaces on an empty
line, when trailing spaces are rendered, or when the next word still fits. -/
def wsFlag (meas : List Char → Nat) (sw : Nat) (align : HorizontalAlignment)
    (st : LIState) : Bool :=
  (st.empty && renderLeadingSpaces align) || renderTrailingSpaces
    || nextWordFits meas sw st.cursor st.parser

/-- `LineElementParser::draw_whitespace`.  On an empty line with suppressed
leading spaces the token is skipped with no event.  Otherwise a full fit
emits either a visible whitespace event or a cursor move, depending on
`wsFlag`; a partial fit emits the largest whole number of space units that
fit (`moved / single` of the source, with `single = space_width /
space_count`) and consumes the whole raw span from the parser
(`consume_str`).  The two division sites of the source are modelled with an
explicit division-by-zero marker. -/
def drawWhitespace (meas : List Char → Nat) (sw : Nat) (align : HorizontalAlignment)
    (st : LIState) (n spaceWidth : Nat) :
    Except LErr (List Event × LIState) :=
  if st.empty && !renderLeadingSpaces align then .ok ([], st)
  else
    match st.cursor.moveCursor (spaceWidth : Int) with
    | (true, moved, c') =>
      if wsFlag meas sw align st then
        .ok ([.whitespace n moved.toNat], { st with cursor := c' })
      else
        .ok ([.moveCursor moved], { st with cursor := c' })
    | (false, moved, c') =>
      if n = 0 then .error .divByZero
      else if spaceWidth / n = 0 then .error .divByZero
      else
        .ok ((if 0 < moved.toNat / (spaceWidth / n) then
                [.whitespace (moved.toNat / (spaceWidth / n))
                  (moved.toNat / (spaceWidth / n) * (spaceWidth / n))]
              else []),
             { st with parser := st.lookahead, cursor := c' })

/-- `LineElementParser::draw_tab`: like whitespace with the distance to the
next tab stop, except that a partial fit only reports a cursor move. -/
def drawTab (meas : List Char → Nat) (sw : Nat) (align : HorizontalAlignment)
    (st : LIState) (spaceWidth : Nat) : List Event × LIState :=
  if st.empty && !renderLeadingSpaces align then ([], st)
  else
    match st.cursor.moveCursor (spaceWidth : Int) with
    | (true, moved, c') =>
      if wsFlag meas sw align st then ([.whitespace 1 moved.toNat], { st with cursor := c' })
      else ([.moveCursor moved], { st with cursor := c' })
    | (false, moved, c') => ([.moveCursor moved], { st with cursor := c' })

/-- Result of handling one peeked token inside the `process` loop: continue
looping, end the line, or hit a modelled panic. -/
inductive StepResult where
  | step (st : LIState) (evs : List Event) : StepResult
  | done (e : LineEndType) (st : LIState) (evs : List Event) : StepResult
  | panic (err : LErr) : StepResult
deriving DecidableEq, Repr

/-- One iteration of the `process` loop of line_iter.rs, handling the token
just peeked.  `st` is the state right after the peek: `st.parser` still
starts with the peeked token and `st.lookahead` has moved past it (a token
is committed by the next peek's `consume_token`, or explicitly). -/
def stepToken (meas : List Char → Nat) (sw : Nat) (align : HorizontalAlignment)
    (st : LIState) (tok : Token) : StepResult :=
  match tok with
  | .whitespace n _seq =>
    match drawWhitespace meas sw align st n (n * sw) with
    | .error e => .panic e
    | .ok (evs, st') => .step st' evs
  | .tab =>
    .step (drawTab meas sw align st st.cursor.nextTabWidth).2
          (drawTab meas sw align st st.cursor.nextTabWidth).1
  | .breakTok c _orig =>
    match nextWordWidth meas st.lookahead none with
    | some ww =>
      if !(st.cursor.fitsInLine ww) || st.empty then
        match st.cursor.moveCursor (meas c : Int) with
        | (true, _, c') =>
          if !st.empty then
            .done .lineBreak { st with cursor := c', parser := st.lookahead }
              [.printed c (meas c)]
          else
            .step { st with cursor := c', parser := st.lookahead }
              [.printed c (meas c)]
        | (false, _, _) =>
          if !st.empty then .done .lineBreak st []
          else .step st []
      else .step st []
    | none => .step st []
  | .word w =>
    match st.cursor.moveCursor (meas w : Int) with
    | (true, _, c') =>
      .step { st with cursor := c', empty := false } (processWord meas sw w)
    | (false, _, _) =>
      if st.empty then
        if (longestFittingAux st.cursor meas w 0).1 = [] then
          .done .lineBreak { st with parser := st.lookahead } []
        else
          match (longestFittingAux st.cursor meas w 0).2 with
          | some rem =>
            .done .lineBreak
              { st with parser := .word rem :: st.lookahead,
                        lookahead := .word rem :: st.lookahead,
                        empty := false }
              (processWord meas sw (longestFittingAux st.cursor meas w 0).1)
          | none =>
            .step { st with empty := false }
              (processWord meas sw (longestFittingAux st.cursor meas w 0).1)
      else .done .lineBreak st []
  | .carriageReturn => .done .carriageReturn { st with parser := st.lookahead } []
  | .newLine => .done .newLine { st with parser := st.lookahead } []

/-- Prefix a run of events onto the result of the rest of the loop. -/
def withEvents (evs : List Event) :
    Except LErr (LineEndType × LIState × List Event) →
    Except LErr (LineEndType × LIState × List Event)
  | .error e => .error e
  | .ok (e, st, evs2) => .ok (e, st, evs ++ evs2)

/-- `LineElementParser::process`: peek tokens (each peek first commits the
previous token into the parser, then advances the lookahead) and handle them
until the line ends; an exhausted stream commits and ends with EndOfText.
The function is fuelled; `lookahead.length + 1` fuel always suffices
(`processSpec`). -/
def process (meas : List Char → Nat) (sw : Nat) (align : HorizontalAlignment) :
    Nat → LIState → Except LErr (LineEndType × LIState × List Event)
  | 0, _ => .error .outOfFuel
  | fuel + 1, st0 =>
    match st0.lookahead with
    | [] => .ok (.endOfText, { st0 with parser := st0.lookahead }, [])
    | tok :: rest =>
      let st := { st0 with parser := tok :: rest, lookahead := rest }
      match stepToken meas sw align st tok with
      | .panic e => .error e
      | .done e st' evs => .ok (e, st', evs)
      | .step st' evs => withEvents evs (process meas sw align fuel st')

/-- Character payload of a token, used by the progress measure. -/
def tokenChars : Token → Nat
  | .word w => w.length
  | .whitespace _ seq => seq.length
  | .breakTok c o => c.length + o.length
  | .newLine => 0
  | .carriageReturn => 0
  | .tab => 0

/-- Progress measure on token streams: token count plus character payload.
Consuming a token, or shortening the head word, strictly decreases it. -/
def streamMeasure : List Token → Nat
  | [] => 0
  | t :: rest => 1 + tokenChars t + streamMeasure rest

/-- A fixed-width character measure assigning width one to every character. -/
def unitMeas (s : List Char) : Nat := s.length

/-- The invariants one loop iteration preserves or establishes: a panic is
impossible, ending the line never grows the remaining stream (strictly
shrinking it when the line was still empty), and continuing the loop keeps
the lookahead and the cursor bounds intact. -/
def stepOK (st : LIState) (tok : Token) : StepResult → Prop
  | .panic _ => False
  | .done _ st' _ =>
      streamMeasure st'.parser ≤ streamMeasure (tok :: st.lookahead) ∧
      (st.empty = true → streamMeasure st'.parser < streamMeasure (tok :: st.lookahead))
  | .step st' _ =>
      st'.lookahead = st.lookahead ∧ st'.cursor.pos ≤ st'.cursor.width ∧
      st'.cursor.width = st.cursor.width

/-! ## Interception pipeline: src/middleware.rs and src/plugin/mod.rs -/

/-- The `ProcessingState` of both wrapper generations. -/
inductive ProcessingState where
  | measure : ProcessingState
  | render : ProcessingState
deriving DecidableEq, Repr

/-- `PluginInner` of src/plugin/mod.rs: the plugin instance, the processing
phase, and the cached peeked token. -/
structure PluginInner (M : Type) where
  plugin : M
  state : ProcessingState
  peeked : Option Token

/-- `PluginWrapper::new`: constructed in the Measure state with no cached
token. -/
def pluginNew {M : Type} (p : M) : PluginInner M :=
  { plugin := p, state := .measure, peeked := none }

/-- `PluginWrapper::set_state`. -/
def pluginSetState {M : Type} (st : PluginInner M) (s : ProcessingState) : PluginInner M :=
  { st with state := s }

/-- `PluginWrapper::render_token`: the identity during Measure, the plugin's
rewrite hook during Render. -/
def pluginRenderToken {M : Type} (renderHook : M → Token → Option Token × M)
    (st : PluginInner M) (t : Token) : Option Token × PluginInner M :=
  match st.state with
  | .measure => (some t, st)
  | .render =>
    ((renderHook st.plugin t).1, { st with plugin := (renderHook st.plugin t).2 })

/-- `PluginWrapper::peek_token`: on a cache miss pull one token through the
plugin's `next_token` hook (which may itself pull raw tokens from the source
and synthesize a replacement, advancing the source) and cache it; on a hit
return the cached token with the state and source untouched.  Result is
(token, wrapper state, source). -/
def pluginPeekToken {M : Type}
    (hook : M → List Token → Option Token × M × List Token)
    (st : PluginInner M) (src : List Token) :
    Option Token × PluginInner M × List Token :=
  match st.peeked with
  | some t => (some t, st, src)
  | none =>
    ((hook st.plugin src).1,
     { st with plugin := (hook st.plugin src).2.1, peeked := (hook st.plugin src).1 },
     (hook st.plugin src).2.2)

/-- `PluginWrapper::consume_peeked_token`. -/
def pluginConsumePeekedToken {M : Type} (st : PluginInner M) : PluginInner M :=
  match st.peeked with
  | some _ => { st with peeked := none }
  | none => st

/-- `PluginWrapper::consume_partial`: truncate the cached peeked token in
place — for Whitespace decrement the logical count by the characters
consumed and advance the raw span past the consumed prefix, for Word advance
the span — touching neither the plugin state nor any source; a cached token
of any other shape is `unreachable!` in the source, modelled as `none`.
(The count subtraction is `u32` subtraction in Rust; call sites only consume
at most the cached count.) -/
def consumePartialTok {M : Type} (len : Nat) (st : PluginInner M) :
    Option (PluginInner M) :=
  match st.peeked with
  | some (.whitespace count seq) =>
    some { st with peeked := some (.whitespace (count - len) (seq.drop len)) }
  | some (.word w) => some { st with peeked := some (.word (w.drop len)) }
  | _ => none

/-- `MiddlewareInner` of src/middleware.rs: the lookahead modifier clone, the
committed modifier, the processing phase, and the cached peeked token paired
with the exact byte length it consumed from the source (modelled in
characters, as the modelled source is a character list). -/
structure MwInner (M : Type) where
  lookahead : M
  middleware : M
  state : ProcessingState
  peekedLen : Nat
  peekedTok : Option PToken

/-- `MiddlewareWrapper::new`: constructed in the Measure state with no cached
token, the lookahead being a clone of the modifier. -/
def mwNew {M : Type} (m : M) : MwInner M :=
  { lookahead := m, middleware := m, state := .measure,
    peekedLen := 0, peekedTok := none }

/-- `MiddlewareWrapper::set_state`. -/
def mwSetState {M : Type} (st : MwInner M) (s : ProcessingState) : MwInner M :=
  { st with state := s }

/-- `MiddlewareWrapper::render_token`: the identity during Measure, the
modifier's rewrite hook (on the lookahead clone) during Render. -/
def mwRenderToken {M : Type} (renderHook : M → PToken → Option PToken × M)
    (st : MwInner M) (t : PToken) : Option PToken × MwInner M :=
  match st.state with
  | .measure => (some t, st)
  | .render =>
    ((renderHook st.lookahead t).1,
     { st with lookahead := (renderHook st.lookahead t).2 })

/-- `MiddlewareWrapper::peek_token`: on a cache miss, clone the source, pull
one token through the modifier's `next_token` hook running on the clone, and
cache the token together with the exact number of source characters the hook
consumed; the source itself is never advanced by a peek.  On a hit, return
the cached token with everything untouched.  Result is (token, wrapper
state, source). -/
def mwPeekToken {M : Type}
    (hook : M → List Char → Option PToken × M × List Char)
    (st : MwInner M) (src : List Char) :
    Option PToken × MwInner M × List Char :=
  match st.peekedTok with
  | some t => (some t, st, src)
  | none =>
    ((hook st.lookahead src).1,
     { st with lookahead := (hook st.lookahead src).2.1,
               peekedTok := (hook st.lookahead src).1,
               peekedLen := src.length - (hook st.lookahead src).2.2.length },
     src)

/-- `MiddlewareWrapper::consume_peeked_token`: advance the source by the
cached byte length, clear the cache, and commit the lookahead modifier. -/
def mwConsumePeekedToken {M : Type} (st : MwInner M) (src : List Char) :
    MwInner M × List Char :=
  ({ st with peekedLen := 0, peekedTok := none, middleware := st.lookahead },
   src.drop st.peekedLen)

/-- `MiddlewareWrapper::replace_peeked_token`: overwrite the cache with a
shortened token and its remaining byte length, resetting the lookahead
modifier to the committed one. -/
def mwReplacePeekedToken {M : Type} (st : MwInner M) (len : Nat) (t : PToken) :
    MwInner M :=
  { st with peekedLen := len, peekedTok := some t, lookahead := st.middleware }

/-- The default `next_token` hook of a modifier with no overrides
(`NoMiddleware`): pull exactly one raw token from the source. -/
def defaultNextToken (u : Unit) (s : List Char) : Option PToken × Unit × List Char :=
  match nextToken s with
  | none => (none, u, s)
  | some (t, _, rest) => (some t, u, rest)

/-! ## Runtime-checked exclusive access -/

/-- Modelled from the spec: the `RefCell::borrow_mut` discipline protecting
`MiddlewareWrapper::inner` (src/middleware.rs).  `borrowed` marks a live
borrow; acquiring while one is live panics (`none`) instead of running the
body. -/
structure RefCellSim (σ : Type) where
  value : σ
  borrowed : Bool

/-- Run a mutating access under the runtime borrow check. -/
def refCellBorrowMut {σ α : Type} (c : RefCellSim σ) (f : σ → σ × α) :
    Option (RefCellSim σ × α) :=
  if c.borrowed then none
  else some ({ value := (f c.value).1, borrowed := false }, (f c.value).2)

/-- `PluginWrapper::inner` of src/plugin/mod.rs dereferences an `UnsafeCell`
through `NonNull::new_unchecked(..).as_mut()` with no runtime check: a live
access is not tracked and a nested access is simply performed, never
detected.  The `accessed` flag only marks a live access for comparison; the
operation ignores it. -/
structure UnsafeCellSim (σ : Type) where
  value : σ
  accessed : Bool

/-- Run a mutating access with no check, as `PluginWrapper::inner` does. -/
def unsafeCellInner {σ α : Type} (c : UnsafeCellSim σ) (f : σ → σ × α) :
    Option (UnsafeCellSim σ × α) :=
  some ({ c with value := (f c.value).1 }, (f c.value).2)

/-- Modelled from the spec: the token stream the newer tokenizer produces
for "sam U+00AD ple" (soft hyphen U+00AD between "sam" and "ple"): the soft
hyphen interrupts the word and becomes a Break token carrying the visible
hyphen glyph and the invisible original span. -/
def samPleToks : List Token :=
  [.word "sam".toList, .breakTok ['-'] ['\u00AD'], .word "ple".toList]

/-- Whether an event is a pure cursor move. -/
def isCursorMove : Event → Bool
  | .moveCursor _ => true
  | _ => false

/-- Whether an event is a visible whitespace block. -/
def isVisibleWhitespace : Event → Bool
  | .whitespace _ _ => true
  | _ => false

/-- The default `next_token` hook of a plugin with no overrides: pull exactly
one token from the source stream. -/
def defaultPluginNext (u : Unit) (s : List Token) :
    Option Token × Unit × List Token :=
  match s with
  | [] => (none, u, [])
  | t :: rest => (some t, u, rest)


/-! ## Theorems -/

theorem nextToken_cons_isSome (c : Char) (cs : List Char) :
    (nextToken (c :: cs)).isSome := by
  simp only [nextToken]
  split
  · simp
  · split
    · simp
    · split <;> simp

theorem nextToken_spec {s span rest : List Char} {t : PToken}
    (h : nextToken s = some (t, span, rest)) :
    span ++ rest = s ∧ rawContent (t, span) = span ∧ rest.length < s.length := by
  cases s with
  | nil => simp [nextToken] at h
  | cons c cs =>
    simp only [nextToken] at h
    split at h
    · rename_i hc
      simp only [Option.some.injEq, Prod.mk.injEq] at h
      obtain ⟨h1, h2, h3⟩ := h
      subst h1 h2 h3
      subst hc
      exact ⟨by simp, by simp [rawContent], by simp⟩
    · split at h
      · rename_i hc
        simp only [Option.some.injEq, Prod.mk.injEq] at h
        obtain ⟨h1, h2, h3⟩ := h
        subst h1 h2 h3
        subst hc
        exact ⟨by simp, by simp [rawContent], by simp⟩
      · split at h
        · simp only [Option.some.injEq, Prod.mk.injEq] at h
          obtain ⟨h1, h2, h3⟩ := h
          subst h1 h2 h3
          refine ⟨by simp [List.takeWhile_append_dropWhile], by simp [rawContent], ?_⟩
          have := (List.dropWhile_sublist (l := cs) isSpaceChar).length_le
          simp only [List.length_cons]
          omega
        · simp only [Option.some.injEq, Prod.mk.injEq] at h
          obtain ⟨h1, h2, h3⟩ := h
          subst h1 h2 h3
          refine ⟨by simp [List.takeWhile_append_dropWhile], by simp [rawContent], ?_⟩
          have := (List.dropWhile_sublist (l := cs) isWordChar).length_le
          simp only [List.length_cons]
          omega

theorem tokenizeAux_flatten (fuel : Nat) :
    ∀ s : List Char, s.length ≤ fuel →
      ((tokenizeAux fuel s).map rawContent).flatten = s := by
  induction fuel with
  | zero =>
    intro s hs
    have : s = [] := List.length_eq_zero.mp (Nat.le_zero.mp hs)
    simp [this, tokenizeAux]
  | succ n ih =>
    intro s hs
    unfold tokenizeAux
    match h : nextToken s with
    | none =>
      cases s with
      | nil => simp
      | cons c cs =>
        have := nextToken_cons_isSome c cs
        rw [h] at this
        simp at this
    | some (t, span, rest) =>
      obtain ⟨happ, hrc, hlt⟩ := nextToken_spec h
      simp only [List.map_cons, List.flatten_cons, hrc]
      rw [ih rest (by omega)]
      exact happ

theorem nextToken_spanMatches {s span rest : List Char} {t : PToken}
    (h : nextToken s = some (t, span, rest)) : spanMatches t span := by
  cases s with
  | nil => simp [nextToken] at h
  | cons c cs =>
    simp only [nextToken] at h
    split at h
    · rename_i hc
      simp only [Option.some.injEq, Prod.mk.injEq] at h
      obtain ⟨h1, h2, -⟩ := h
      subst h1 h2 hc
      simp [spanMatches]
    · split at h
      · rename_i hc
        simp only [Option.some.injEq, Prod.mk.injEq] at h
        obtain ⟨h1, h2, -⟩ := h
        subst h1 h2 hc
        simp [spanMatches]
      · rename_i hsp
        split at h
        · rename_i hspace
          simp only [Option.some.injEq, Prod.mk.injEq] at h
          obtain ⟨h1, h2, -⟩ := h
          subst h1 h2
          refine ⟨by simp [Nat.add_comm], by omega, ?_⟩
          intro x hx
          rcases List.mem_cons.mp hx with hx | hx
          · exact hx ▸ hspace
          · exact List.mem_takeWhile_imp hx
        · simp only [Option.some.injEq, Prod.mk.injEq] at h
          obtain ⟨h1, h2, -⟩ := h
          subst h1 h2
          exact ⟨rfl, by simp⟩

theorem tokenize_mem_spanMatches :
    ∀ (fuel : Nat) (s : List Char) (p : PToken × List Char),
      p ∈ tokenizeAux fuel s → spanMatches p.1 p.2 := by
  intro fuel
  induction fuel with
  | zero => intro s p hp; simp [tokenizeAux] at hp
  | succ n ih =>
    intro s p hp
    unfold tokenizeAux at hp
    match h : nextToken s with
    | none => rw [h] at hp; simp at hp
    | some (t, span, rest) =>
      rw [h] at hp
      rcases List.mem_cons.mp hp with hp | hp
      · exact hp ▸ nextToken_spanMatches h
      · exact ih rest p hp

/-- C1.  Tokenizer round-trip: for every input string, concatenating the raw
character content of the tokens emitted by `Parser::parse` in order — each
Word token contributing its borrowed span, each NewLine contributing `'\n'`,
each CarriageReturn contributing `'\r'`, and each Whitespace token
contributing the raw whitespace characters it covers — reproduces the input
exactly.  The second conjunct pins down what each token's raw span covers. -/
theorem c1_tokenizer_round_trip (s : List Char) :
    ((tokenize s).map rawContent).flatten = s ∧
    ∀ p ∈ tokenize s, spanMatches p.1 p.2 :=
  ⟨tokenizeAux_flatten s.length s le_rfl,
   fun p hp => tokenize_mem_spanMatches s.length s p hp⟩

theorem streamMeasure_le_cons (t : Token) (rest : List Token) :
    streamMeasure rest < streamMeasure (t :: rest) := by
  simp only [streamMeasure]
  omega

theorem moveCursor_nat (c : LineCursor) (k : Nat) :
    c.moveCursor (k : Int) =
      if c.pos + k ≤ c.width then (true, (k : Int), { c with pos := c.pos + k })
      else (false, (c.space : Int), c) := by
  unfold LineCursor.moveCursor
  by_cases h : c.pos + k ≤ c.width
  · have hc : (0 : Int) ≤ (c.pos : Int) + (k : Int) ∧
        (c.pos : Int) + (k : Int) ≤ (c.width : Int) := by
      constructor <;> omega
    rw [if_pos hc, if_pos h]
    have ht : ((c.pos : Int) + (k : Int)).toNat = c.pos + k := by omega
    rw [ht]
  · have hc : ¬ ((0 : Int) ≤ (c.pos : Int) + (k : Int) ∧
        (c.pos : Int) + (k : Int) ≤ (c.width : Int)) := by
      intro hcon
      omega
    rw [if_neg hc, if_neg h, if_pos (by positivity : (0 : Int) ≤ (k : Int))]

theorem moveCursor_nat_pos_le {c : LineCursor} (h : c.pos ≤ c.width) (k : Nat) :
    ((c.moveCursor (k : Int)).2.2).pos ≤ ((c.moveCursor (k : Int)).2.2).width ∧
    ((c.moveCursor (k : Int)).2.2).width = c.width ∧
    ((c.moveCursor (k : Int)).2.2).tabWidth = c.tabWidth := by
  rw [moveCursor_nat]
  split
  · rename_i hk
    exact ⟨hk, rfl, rfl⟩
  · exact ⟨h, rfl, rfl⟩

theorem longestFittingAux_append (c : LineCursor) (meas : List Char → Nat) :
    ∀ (w : List Char) (acc : Nat),
      (longestFittingAux c meas w acc).1 ++
        ((longestFittingAux c meas w acc).2.getD []) = w := by
  intro w
  induction w with
  | nil => intro acc; simp [longestFittingAux]
  | cons ch rest ih =>
    intro acc
    simp only [longestFittingAux]
    split
    · simp
    · simp only
      rw [List.cons_append]
      rw [ih (acc + meas [ch])]

theorem longestFittingAux_some_length {c : LineCursor} {meas : List Char → Nat}
    {w : List Char} {acc : Nat} {rem : List Char}
    (h : (longestFittingAux c meas w acc).2 = some rem)
    (hne : (longestFittingAux c meas w acc).1 ≠ []) :
    rem.length < w.length := by
  have happ := longestFittingAux_append c meas w acc
  rw [h] at happ
  simp only [Option.getD_some] at happ
  have := congrArg List.length happ
  simp only [List.length_append] at this
  have hp : 0 < (longestFittingAux c meas w acc).1.length :=
    List.length_pos.mpr hne
  omega

theorem drawWhitespace_spec (meas : List Char → Nat) (sw : Nat)
    (align : HorizontalAlignment) {st : LIState} (n : Nat)
    (hpos : st.cursor.pos ≤ st.cursor.width) :
    ∃ evs st', drawWhitespace meas sw align st n (n * sw) = .ok (evs, st') ∧
      st'.lookahead = st.lookahead ∧
      st'.cursor.pos ≤ st'.cursor.width ∧
      st'.cursor.width = st.cursor.width := by
  by_cases hlead : (st.empty && !renderLeadingSpaces align) = true
  · exact ⟨[], st, by simp [drawWhitespace, hlead], rfl, hpos, rfl⟩
  · by_cases hfit : st.cursor.pos + n * sw ≤ st.cursor.width
    · by_cases hflag : wsFlag meas sw align st = true
      · refine ⟨[.whitespace n (n * sw)],
          { st with cursor := { st.cursor with pos := st.cursor.pos + n * sw } },
          ?_, rfl, hfit, rfl⟩
        simp only [drawWhitespace, moveCursor_nat]
        simp [hlead, hfit, hflag]
        rw [← Nat.cast_mul, Int.toNat_natCast]
      · refine ⟨[.moveCursor ((n * sw : Nat) : Int)],
          { st with cursor := { st.cursor with pos := st.cursor.pos + n * sw } },
          ?_, rfl, hfit, rfl⟩
        simp only [drawWhitespace, moveCursor_nat]
        simp [hlead, hfit, hflag]
    · have hn : n ≠ 0 := by
        intro h0
        subst h0
        simp at hfit
        omega
      have hsw : sw ≠ 0 := by
        intro h0
        subst h0
        simp at hfit
        omega
      have hsingle : n * sw / n = sw := Nat.mul_div_cancel_left sw (Nat.pos_of_ne_zero hn)
      refine ⟨(if 0 < st.cursor.space / sw then
                [.whitespace (st.cursor.space / sw) (st.cursor.space / sw * sw)] else []),
        { st with parser := st.lookahead }, ?_, rfl, hpos, rfl⟩
      simp only [drawWhitespace, moveCursor_nat]
      simp [hlead, hfit, hn, hsingle, hsw]

theorem drawTab_spec (meas : List Char → Nat) (sw : Nat)
    (align : HorizontalAlignment) {st : LIState} (k : Nat)
    (hpos : st.cursor.pos ≤ st.cursor.width) :
    (drawTab meas sw align st k).2.lookahead = st.lookahead ∧
    (drawTab meas sw align st k).2.cursor.pos ≤ (drawTab meas sw align st k).2.cursor.width ∧
    (drawTab meas sw align st k).2.cursor.width = st.cursor.width := by
  by_cases hlead : (st.empty && !renderLeadingSpaces align) = true
  · simp [drawTab, hlead, hpos]
  · by_cases hfit : st.cursor.pos + k ≤ st.cursor.width
    · by_cases hflag : wsFlag meas sw align st = true
      · simp only [drawTab, moveCursor_nat]
        simp [hlead, hfit, hflag]
      · simp only [drawTab, moveCursor_nat]
        simp [hlead, hfit, hflag]
    · simp only [drawTab, moveCursor_nat]
      simp [hlead, hfit, hpos]

theorem stepToken_spec (meas : List Char → Nat) (sw : Nat) (align : HorizontalAlignment)
    (st : LIState) (tok : Token)
    (hpar : st.parser = tok :: st.lookahead)
    (hpos : st.cursor.pos ≤ st.cursor.width) :
    stepOK st tok (stepToken meas sw align st tok) := by
  cases tok with
  | whitespace n seq =>
    obtain ⟨evs, st1, heq, hlk, hple, hwid⟩ := drawWhitespace_spec meas sw align n hpos
    simp only [stepToken, heq, stepOK]
    exact ⟨hlk, hple, hwid⟩
  | tab =>
    obtain ⟨hlk, hple, hwid⟩ := drawTab_spec meas sw align st.cursor.nextTabWidth hpos
    simp only [stepToken, stepOK]
    exact ⟨hlk, hple, hwid⟩
  | newLine =>
    simp only [stepToken, stepOK]
    exact ⟨Nat.le_of_lt (streamMeasure_le_cons _ _), fun _ => streamMeasure_le_cons _ _⟩
  | carriageReturn =>
    simp only [stepToken, stepOK]
    exact ⟨Nat.le_of_lt (streamMeasure_le_cons _ _), fun _ => streamMeasure_le_cons _ _⟩
  | breakTok c orig =>
    simp only [stepToken]
    split
    · split
      · split
        · rename_i moved c' heqmv
          have hcle := moveCursor_nat_pos_le hpos (meas c)
          rw [heqmv] at hcle
          split
          · rename_i hemp
            have hf : st.empty = false := by simpa using hemp
            simp only [stepOK]
            exact ⟨Nat.le_of_lt (streamMeasure_le_cons _ _),
                   fun hcontra => by rw [hf] at hcontra; cases hcontra⟩
          · simp only [stepOK]
            exact ⟨by trivial, hcle.1, hcle.2.1⟩
        · split
          · rename_i hemp
            have hf : st.empty = false := by simpa using hemp
            simp only [stepOK]
            rw [hpar]
            exact ⟨le_rfl, fun hcontra => by rw [hf] at hcontra; cases hcontra⟩
          · simp only [stepOK]
            exact ⟨by trivial, hpos, by trivial⟩
      · simp only [stepOK]
        exact ⟨by trivial, hpos, by trivial⟩
    · simp only [stepOK]
      exact ⟨by trivial, hpos, by trivial⟩
  | word w =>
    simp only [stepToken]
    split
    · rename_i moved c' heqmv
      have hcle := moveCursor_nat_pos_le hpos (meas w)
      rw [heqmv] at hcle
      simp only [stepOK]
      exact ⟨by trivial, hcle.1, hcle.2.1⟩
    · split
      · split
        · simp only [stepOK]
          exact ⟨Nat.le_of_lt (streamMeasure_le_cons _ _), fun _ => streamMeasure_le_cons _ _⟩
        · rename_i hpre
          split
          · rename_i rem hrem
            have hlen := longestFittingAux_some_length hrem hpre
            simp only [stepOK]
            constructor
            · simp only [streamMeasure, tokenChars]
              omega
            · intro _
              simp only [streamMeasure, tokenChars]
              omega
          · simp only [stepOK]
            exact ⟨by trivial, hpos, by trivial⟩
      · rename_i hemp
        simp only [stepOK]
        rw [hpar]
        exact ⟨le_rfl, fun hcontra => absurd hcontra hemp⟩

/-- Master specification of `process`: it never hits the modelled
division-by-zero panic, and with fuel exceeding the token count it returns,
never growing the remaining stream and strictly shrinking it whenever the
line started empty and the stream was non-empty. -/
theorem processSpec (meas : List Char → Nat) (sw : Nat) (align : HorizontalAlignment) :
    ∀ (fuel : Nat) (st : LIState), st.cursor.pos ≤ st.cursor.width →
      process meas sw align fuel st ≠ .error .divByZero ∧
      (st.lookahead.length < fuel →
        ∃ e st' evs, process meas sw align fuel st = .ok (e, st', evs) ∧
          streamMeasure st'.parser ≤ streamMeasure st.lookahead ∧
          (st.empty = true → st.lookahead ≠ [] →
            streamMeasure st'.parser < streamMeasure st.lookahead)) := by
  intro fuel
  induction fuel with
  | zero =>
    intro st hpos
    refine ⟨by simp [process], ?_⟩
    intro h
    omega
  | succ n ih =>
    intro st hpos
    rcases hlk : st.lookahead with _ | ⟨tok, rest⟩
    · constructor
      · simp [process, hlk]
      · intro _
        refine ⟨.endOfText, { st with parser := ([] : List Token) }, [], ?_, ?_, ?_⟩
        · simp [process, hlk]
        · exact le_rfl
        · intro _ hne
          exact absurd rfl hne
    · have hspec := stepToken_spec meas sw align
        { st with parser := tok :: rest, lookahead := rest } tok rfl hpos
      rcases hstep : stepToken meas sw align
          { st with parser := tok :: rest, lookahead := rest } tok with
        ⟨st1, evs1⟩ | ⟨e1, st1, evs1⟩ | ⟨err⟩
      · -- step: the loop continues
        rw [hstep] at hspec
        simp only [stepOK] at hspec
        obtain ⟨hlk1, hpos1, hwid1⟩ := hspec
        obtain ⟨ihA, ihB⟩ := ih st1 hpos1
        have hp : process meas sw align (n + 1) st =
            withEvents evs1 (process meas sw align n st1) := by
          simp only [process, hlk]
          rw [hstep]
        constructor
        · rw [hp]
          rcases hr : process meas sw align n st1 with err2 | r2
          · have : err2 ≠ .divByZero := by
              intro hcon
              rw [hcon] at hr
              exact ihA hr
            simp only [withEvents]
            intro hcon
            rw [Except.error.injEq] at hcon
            exact this hcon
          · simp [withEvents]
        · intro hfuel
          simp only [List.length_cons] at hfuel
          have hfuel1 : st1.lookahead.length < n := by
            rw [hlk1]
            omega
          obtain ⟨e2, st2, evs2, heq2, hle2, -⟩ := ihB hfuel1
          refine ⟨e2, st2, evs1 ++ evs2, ?_, ?_, ?_⟩
          · rw [hp, heq2]
            simp [withEvents]
          · calc streamMeasure st2.parser ≤ streamMeasure st1.lookahead := hle2
              _ = streamMeasure rest := by rw [hlk1]
              _ ≤ streamMeasure (tok :: rest) := Nat.le_of_lt (streamMeasure_le_cons _ _)
          · intro _ _
            calc streamMeasure st2.parser ≤ streamMeasure st1.lookahead := hle2
              _ = streamMeasure rest := by rw [hlk1]
              _ < streamMeasure (tok :: rest) := streamMeasure_le_cons _ _
      · -- done: the line ends here
        rw [hstep] at hspec
        simp only [stepOK] at hspec
        have hp : process meas sw align (n + 1) st = .ok (e1, st1, evs1) := by
          simp only [process, hlk]
          rw [hstep]
        constructor
        · rw [hp]
          intro hcon
          cases hcon
        · intro _
          refine ⟨e1, st1, evs1, hp, ?_, ?_⟩
          · exact hspec.1
          · intro hemp _
            exact hspec.2 hemp
      · -- panic: impossible
        rw [hstep] at hspec
        simp only [stepOK] at hspec

/-- C2.  Guaranteed progress: for every line width of at least one pixel and
every non-empty token stream, `process` returns within `length + 1` loop
iterations (the fuelled embedding yields a result, never a panic), and when
the line started empty it consumes at least one token or character before
returning EndOfText or LineBreak — the measure of the remaining stream
strictly drops.  In particular, a Word token on an empty line whose width
and even first character exceed the line width is forcibly consumed and the
line ends with the LineBreak classification, emitting nothing. -/
theorem c2_guaranteed_progress (meas : List Char → Nat) (sw width tabW : Nat)
    (align : HorizontalAlignment) (toks : List Token)
    (hw : 1 ≤ width) (hne : toks ≠ []) :
    ∃ e st' evs,
      process meas sw align (toks.length + 1) (initLine width tabW toks) =
        .ok (e, st', evs) ∧
      ((e = .endOfText ∨ e = .lineBreak) →
        streamMeasure st'.parser < streamMeasure toks) ∧
      (∀ ch cs rest, toks = .word (ch :: cs) :: rest →
        width < meas [ch] → width < meas (ch :: cs) →
        e = .lineBreak ∧ st'.parser = rest ∧ evs = []) := by
  obtain ⟨-, hB⟩ := processSpec meas sw align (toks.length + 1)
    (initLine width tabW toks) (Nat.zero_le _)
  obtain ⟨e, st', evs, heq, -, hstrict⟩ := hB (Nat.lt_succ_self _)
  refine ⟨e, st', evs, heq, fun _ => hstrict rfl hne, ?_⟩
  intro ch cs rest htoks hch hword
  subst htoks
  have hA : ¬ (meas (ch :: cs) ≤ width) := by omega
  have hBc : ¬ (meas [ch] ≤ width) := by omega
  have hcomp : process meas sw align ((Token.word (ch :: cs) :: rest).length + 1)
      (initLine width tabW (Token.word (ch :: cs) :: rest)) =
      .ok (.lineBreak,
        { parser := rest, lookahead := rest,
          cursor := { pos := 0, width := width, tabWidth := tabW },
          empty := true }, []) := by
    simp [process, stepToken, initLine, moveCursor_nat, longestFittingAux,
      LineCursor.fitsInLine, hA, hBc]
  rw [heq] at hcomp
  simp only [Except.ok.injEq, Prod.mk.injEq] at hcomp
  obtain ⟨h1, h2, h3⟩ := hcomp
  refine ⟨h1, ?_, h3⟩
  rw [h2]

/-- Witness for C2 at a concrete one-pixel line and two-character word. -/
theorem c2_guaranteed_progress_witness :
    ∃ e st' evs,
      process unitMeas 1 .left ([Token.word ['a', 'b']].length + 1)
        (initLine 1 4 [Token.word ['a', 'b']]) = .ok (e, st', evs) ∧
      ((e = .endOfText ∨ e = .lineBreak) →
        streamMeasure st'.parser < streamMeasure [Token.word ['a', 'b']]) ∧
      (∀ ch cs rest, [Token.word ['a', 'b']] = .word (ch :: cs) :: rest →
        1 < unitMeas [ch] → 1 < unitMeas (ch :: cs) →
        e = .lineBreak ∧ st'.parser = rest ∧ evs = []) :=
  c2_guaranteed_progress unitMeas 1 1 4 .left [Token.word ['a', 'b']]
    le_rfl (by decide)

/-- C3 (counterexample).  With the fixed unit character measure, width 6
fits "sample" (width 6) and not "sam-ple" (width 7) — exactly the width
regime the claim describes — but the layout keeps everything on one line:
the Break is silently consumed, no hyphen glyph is emitted, "ple" is printed
on the same line, and the line ends as EndOfText, not LineBreak, with
nothing left to re-process. -/
theorem c3_soft_hyphen_counterexample :
    unitMeas "sample".toList ≤ 6 ∧
    ¬ (unitMeas "sam-ple".toList ≤ 6) ∧
    process unitMeas 1 .left 4 (initLine 6 4 samPleToks) =
      .ok (.endOfText,
        { parser := [], lookahead := [],
          cursor := { pos := 6, width := 6, tabWidth := 4 }, empty := false },
        [.printed "sam".toList 3, .printed "ple".toList 3]) ∧
    Except.map (fun r => r.1) (process unitMeas 1 .left 4 (initLine 6 4 samPleToks)) =
      .ok LineEndType.endOfText ∧
    LineEndType.endOfText ≠ LineEndType.lineBreak :=
  ⟨by decide, by decide, rfl, rfl, by decide⟩

/-- C3 (amended).  Soft hyphen: "sam U+00AD ple" laid out in a width fitting
"sam-" but not "sample" (unit measure, width 4 or 5) renders "sam" then the
hyphen glyph and ends the line as LineBreak; re-processing the remainder
yields "ple" on the next line.  The hyphen glyph is rendered exactly when
the break is taken: on the Break token the algorithm looks ahead at the
width of the following Word, prints the hyphen and ends the line as
LineBreak when it does not fit, and silently consumes the Break (no glyph,
no width) when it fits, as the width-6 run shows. -/
theorem c3_soft_hyphen_amended :
    (∀ width : Nat, 4 ≤ width → width < 6 →
      process unitMeas 1 .left 4 (initLine width 4 samPleToks) =
        .ok (.lineBreak,
          { parser := [.word "ple".toList], lookahead := [.word "ple".toList],
            cursor := { pos := 4, width := width, tabWidth := 4 }, empty := false },
          [.printed "sam".toList 3, .printed ['-'] 1]) ∧
      process unitMeas 1 .left 2 (initLine width 4 [.word "ple".toList]) =
        .ok (.endOfText,
          { parser := [], lookahead := [],
            cursor := { pos := 3, width := width, tabWidth := 4 }, empty := false },
          [.printed "ple".toList 3])) ∧
    process unitMeas 1 .left 4 (initLine 6 4 samPleToks) =
      .ok (.endOfText,
        { parser := [], lookahead := [],
          cursor := { pos := 6, width := 6, tabWidth := 4 }, empty := false },
        [.printed "sam".toList 3, .printed "ple".toList 3]) := by
  constructor
  · intro width h4 h6
    interval_cases width
    · exact ⟨rfl, rfl⟩
    · exact ⟨rfl, rfl⟩
  · rfl

/-- Witness for the amended C3 at width 5, the width of the repository's own
soft-hyphen test. -/
theorem c3_soft_hyphen_amended_witness :
    process unitMeas 1 .left 4 (initLine 5 4 samPleToks) =
      .ok (.lineBreak,
        { parser := [.word "ple".toList], lookahead := [.word "ple".toList],
          cursor := { pos := 4, width := 5, tabWidth := 4 }, empty := false },
        [.printed "sam".toList 3, .printed ['-'] 1]) :=
  (c3_soft_hyphen_amended.1 5 (by omega) (by omega)).1

/-- C4 (counterexample).  "a U+00A0 b" is one Word token; at width 2 (unit
measure) — a width fitting "a" (1) but not "a b" (3) — the word alone on an
empty line is force-split at character granularity: "a" and the NBSP gap are
rendered on the current line, the line ends as LineBreak, and "b" is carried
to the next line: the two halves ARE split across lines. -/
theorem c4_nbsp_counterexample :
    unitMeas ['a'] ≤ 2 ∧ ¬ (unitMeas ['a', ' ', 'b'] ≤ 2) ∧
    process unitMeas 1 .left 3 (initLine 2 4 [.word ['a', nbsp, 'b']]) =
      .ok (.lineBreak,
        { parser := [.word ['b']], lookahead := [.word ['b']],
          cursor := { pos := 0, width := 2, tabWidth := 4 }, empty := false },
        [.printed ['a'] 1, .whitespace 1 1, .printed [] 0]) :=
  ⟨by decide, by decide, rfl⟩

/-- C4 (amended).  The tokenizer emits "a U+00A0 b" as a single Word token
(NBSP counts as a word character), so word-level wrapping never splits the
halves: when the word does not fit after existing content it moves whole to
the next line, where a visible whitespace event of one space width is
emitted between the halves; only the forced character-level wrap of a word
wider than an empty line (the counterexample) can split it. -/
theorem c4_nbsp_amended :
    tokenize ['a', nbsp, 'b'] = [(.word ['a', nbsp, 'b'], ['a', nbsp, 'b'])] ∧
    process unitMeas 1 .left 5 (initLine 3 4
        [.word ['x'], .whitespace 1 [' '], .word ['a', nbsp, 'b']]) =
      .ok (.lineBreak,
        { parser := [.word ['a', nbsp, 'b']], lookahead := [],
          cursor := { pos := 2, width := 3, tabWidth := 4 }, empty := false },
        [.printed ['x'] 1, .moveCursor 1]) ∧
    process unitMeas 1 .left 3 (initLine 3 4 [.word ['a', nbsp, 'b']]) =
      .ok (.endOfText,
        { parser := [], lookahead := [],
          cursor := { pos := 3, width := 3, tabWidth := 4 }, empty := false },
        [.printed ['a'] 1, .whitespace 1 1, .printed ['b'] 1]) :=
  ⟨rfl, rfl, rfl⟩

/-- C5 (counterexample).  Under Center alignment a leading Whitespace token
on an empty line produces no event at all — the emitted event list of the
run contains neither a visible whitespace event nor the cursor-move event
the claim requires, and the cursor has not advanced past it (the word is at
position 0). -/
theorem c5_leading_ws_counterexample :
    process unitMeas 1 .center 3 (initLine 5 4 [.whitespace 1 [' '], .word ['a']]) =
      .ok (.endOfText,
        { parser := [], lookahead := [],
          cursor := { pos := 1, width := 5, tabWidth := 4 }, empty := false },
        [.printed ['a'] 1]) ∧
    [Event.printed ['a'] 1].filter isCursorMove = [] ∧
    [Event.printed ['a'] 1].filter isVisibleWhitespace = [] :=
  ⟨rfl, rfl, rfl⟩

/-- C5 (amended).  Leading whitespace on an empty line is emitted as a
visible whitespace event only under Left alignment; under Center, Right and
Justified the run is skipped entirely — no event of any kind is emitted (not
a cursor move) and the cursor does not advance. -/
theorem c5_leading_ws_amended :
    process unitMeas 1 .left 3 (initLine 5 4 [.whitespace 1 [' '], .word ['a']]) =
      .ok (.endOfText,
        { parser := [], lookahead := [],
          cursor := { pos := 2, width := 5, tabWidth := 4 }, empty := false },
        [.whitespace 1 1, .printed ['a'] 1]) ∧
    (∀ align, renderLeadingSpaces align = false →
      process unitMeas 1 align 3 (initLine 5 4 [.whitespace 1 [' '], .word ['a']]) =
        .ok (.endOfText,
          { parser := [], lookahead := [],
            cursor := { pos := 1, width := 5, tabWidth := 4 }, empty := false },
          [.printed ['a'] 1])) ∧
    renderLeadingSpaces .left = true ∧ renderLeadingSpaces .center = false ∧
    renderLeadingSpaces .right = false ∧ renderLeadingSpaces .justified = false := by
  refine ⟨rfl, ?_, rfl, rfl, rfl, rfl⟩
  intro align h
  cases align with
  | left => cases h
  | center => rfl
  | right => rfl
  | justified => rfl

/-- Witness for the amended C5 under Right alignment. -/
theorem c5_leading_ws_amended_witness :
    process unitMeas 1 .right 3 (initLine 5 4 [.whitespace 1 [' '], .word ['a']]) =
      .ok (.endOfText,
        { parser := [], lookahead := [],
          cursor := { pos := 1, width := 5, tabWidth := 4 }, empty := false },
        [.printed ['a'] 1]) :=
  c5_leading_ws_amended.2.1 .right rfl

/-- C6 (counterexample).  A Whitespace token of 3 space-equivalents meeting
a line with room for 1: the algorithm emits a whitespace event for the one
unit that fits, but then consumes the ENTIRE raw span — the remaining 2
space-equivalents are discarded, no truncated Whitespace token survives
anywhere (the final parser is empty) — and the line does not end there: the
following word "b" is printed on the same line and the run ends as
EndOfText. -/
theorem c6_partial_ws_counterexample :
    process unitMeas 1 .left 4 (initLine 2 4
        [.word ['a'], .whitespace 3 [' ', ' ', ' '], .word ['b']]) =
      .ok (.endOfText,
        { parser := [], lookahead := [],
          cursor := { pos := 2, width := 2, tabWidth := 4 }, empty := false },
        [.printed ['a'] 1, .whitespace 1 1, .printed ['b'] 1]) := rfl

/-- C6 (amended).  When a Whitespace token only partially fits, this line
iterator emits a whitespace event for the largest whole number of space
units that fit, then consumes the whole raw span from the parser via
`consume_str` — the unconsumed remainder is discarded rather than truncated
into a cached token, and processing continues on the same line.  The
truncation the claim describes exists as `PluginWrapper::consume_partial`
(src/plugin/mod.rs), a pure cache surgery that decrements the logical count,
advances the raw span past the consumed prefix, and leaves the plugin state
untouched without any token-generation hook (its type takes none); it is not
invoked by this line iterator. -/
theorem c6_partial_ws_amended :
    process unitMeas 1 .left 4 (initLine 2 4
        [.word ['a'], .whitespace 3 [' ', ' ', ' '], .word ['b']]) =
      .ok (.endOfText,
        { parser := [], lookahead := [],
          cursor := { pos := 2, width := 2, tabWidth := 4 }, empty := false },
        [.printed ['a'] 1, .whitespace 1 1, .printed ['b'] 1]) ∧
    (∀ (M : Type) (p : M) (s : ProcessingState) (n len : Nat) (seq : List Char),
      consumePartialTok len ⟨p, s, some (.whitespace n seq)⟩ =
        some ⟨p, s, some (.whitespace (n - len) (seq.drop len))⟩) ∧
    (∀ (M : Type) (p : M) (s : ProcessingState) (len : Nat) (w : List Char),
      consumePartialTok len ⟨p, s, some (.word w)⟩ =
        some ⟨p, s, some (.word (w.drop len))⟩) :=
  ⟨rfl, fun _ _ _ _ _ _ => rfl, fun _ _ _ _ _ => rfl⟩

/-- C7.  Peek caching: for every parser state and every modifier, the first
peek after a consume (cache empty) pulls exactly one token through the
modifier's `next_token` hook and caches it together with the exact byte
length the hook consumed from the source buffer, without advancing the
source; every subsequent peek before the next consume or replacement returns
the identical cached token — for ANY hook, so `next_token` is not invoked
again — and does not advance the source; consuming clears the cache and
advances the source by exactly the cached byte length.  The final conjunct
states the same cache-hit behaviour for the plugin-generation wrapper. -/
theorem c7_peek_caching {M : Type}
    (hook hook2 : M → List Char → Option PToken × M × List Char)
    (phook : M → List Token → Option Token × M × List Token)
    (st : MwInner M) (src : List Char) (pst : PluginInner M) (psrc : List Token)
    (hmiss : st.peekedTok = none) :
    (mwPeekToken hook st src).2.2 = src ∧
    (mwPeekToken hook st src).1 = (hook st.lookahead src).1 ∧
    (mwPeekToken hook st src).2.1.peekedTok = (hook st.lookahead src).1 ∧
    (mwPeekToken hook st src).2.1.peekedLen =
      src.length - (hook st.lookahead src).2.2.length ∧
    (∀ t, (hook st.lookahead src).1 = some t →
      mwPeekToken hook2 (mwPeekToken hook st src).2.1 src =
        (some t, (mwPeekToken hook st src).2.1, src)) ∧
    (mwConsumePeekedToken (mwPeekToken hook st src).2.1 src).1.peekedTok = none ∧
    (mwConsumePeekedToken (mwPeekToken hook st src).2.1 src).2 =
      src.drop (mwPeekToken hook st src).2.1.peekedLen ∧
    (∀ t, pst.peeked = some t →
      pluginPeekToken phook pst psrc = (some t, pst, psrc)) := by
  refine ⟨?_, ?_, ?_, ?_, ?_, ?_, ?_, ?_⟩
  · simp [mwPeekToken, hmiss]
  · simp [mwPeekToken, hmiss]
  · simp [mwPeekToken, hmiss]
  · simp [mwPeekToken, hmiss]
  · intro t ht
    simp [mwPeekToken, hmiss, ht]
  · simp [mwPeekToken, hmiss, mwConsumePeekedToken]
  · simp [mwPeekToken, hmiss, mwConsumePeekedToken]
  · intro t ht
    simp [pluginPeekToken, ht]

/-- Witness for C7: a fresh wrapper peeking the default modifier over a
two-character source does not advance the source. -/
theorem c7_peek_caching_witness :
    (mwPeekToken defaultNextToken (mwNew ()) "ab".toList).2.2 = "ab".toList :=
  (c7_peek_caching defaultNextToken defaultNextToken defaultPluginNext
    (mwNew ()) "ab".toList (pluginNew ()) [] rfl).1

/-- C8.  Phase-gated rendering: for both pipeline wrapper generations,
`render_token` is the identity on every token while the state is Measure —
for ANY rewrite hook, so the modifier is not consulted — and invokes the
modifier's rewrite hook exactly when the state is Render; and both wrappers
are constructed in the Measure state, so measurement sees the unmodified
token stream. -/
theorem c8_phase_gated_rendering {M : Type} (p0 : M)
    (renderHook renderHook2 : M → Token → Option Token × M)
    (mwHook mwHook2 : M → PToken → Option PToken × M) :
    (∀ (pst : PluginInner M) (t : Token), pst.state = .measure →
       pluginRenderToken renderHook pst t = (some t, pst) ∧
       pluginRenderToken renderHook pst t = pluginRenderToken renderHook2 pst t) ∧
    (∀ (pst : PluginInner M) (t : Token), pst.state = .render →
       pluginRenderToken renderHook pst t =
         ((renderHook pst.plugin t).1,
          { pst with plugin := (renderHook pst.plugin t).2 })) ∧
    (pluginNew p0).state = .measure ∧
    (∀ (mst : MwInner M) (t : PToken), mst.state = .measure →
       mwRenderToken mwHook mst t = (some t, mst) ∧
       mwRenderToken mwHook mst t = mwRenderToken mwHook2 mst t) ∧
    (∀ (mst : MwInner M) (t : PToken), mst.state = .render →
       mwRenderToken mwHook mst t =
         ((mwHook mst.lookahead t).1,
          { mst with lookahead := (mwHook mst.lookahead t).2 })) ∧
    (mwNew p0).state = .measure := by
  refine ⟨?_, ?_, rfl, ?_, ?_, rfl⟩
  · intro pst t h
    constructor <;> simp [pluginRenderToken, h]
  · intro pst t h
    simp [pluginRenderToken, h]
  · intro mst t h
    constructor <;> simp [mwRenderToken, h]
  · intro mst t h
    simp [mwRenderToken, h]

/-- Witness for C8: a freshly constructed plugin wrapper passes a Tab token
through unmodified even under a hook that would suppress every token. -/
theorem c8_phase_gated_rendering_witness :
    pluginRenderToken (M := Unit) (fun u _ => (none, u)) (pluginNew ()) .tab =
      (some .tab, pluginNew ()) :=
  ((c8_phase_gated_rendering () (fun u _ => (none, u)) (fun u _ => (none, u))
      (fun u _ => (none, u)) (fun u _ => (none, u))).1 (pluginNew ()) .tab rfl).1

/-- C9 (counterexample).  A nested access attempted during a live access:
the RefCell-backed middleware wrapper fails loudly (the modelled panic), but
the UnsafeCell-backed plugin wrapper performs the access with no runtime
check at all — it neither panics nor detects the violation — refuting the
claim that every wrapper type presenting the pipeline contract enforces
runtime-checked exclusive access. -/
theorem c9_exclusive_access_counterexample :
    refCellBorrowMut (σ := Nat) (α := Unit) ⟨0, true⟩ (fun v => (v + 1, ())) = none ∧
    unsafeCellInner (σ := Nat) (α := Unit) ⟨0, true⟩ (fun v => (v + 1, ())) =
      some (⟨1, true⟩, ()) :=
  ⟨rfl, rfl⟩

/-- C9 (amended).  Only the RefCell-backed `MiddlewareWrapper` enforces
runtime-checked exclusive access: any acquisition during a live borrow
panics rather than running.  The UnsafeCell-backed `PluginWrapper` performs
no runtime check: its access always proceeds, so exclusive access there is an
unchecked safety assumption, not an enforced property. -/
theorem c9_exclusive_access_amended :
    (∀ (σ α : Type) (c : RefCellSim σ) (f : σ → σ × α),
       c.borrowed = true → refCellBorrowMut c f = none) ∧
    (∀ (σ α : Type) (c : UnsafeCellSim σ) (f : σ → σ × α),
       (unsafeCellInner c f).isSome = true) := by
  constructor
  · intro σ α c f h
    simp [refCellBorrowMut, h]
  · intro σ α c f
    simp [unsafeCellInner]

/-- Witness for the amended C9 at a concrete live borrow. -/
theorem c9_exclusive_access_amended_witness :
    refCellBorrowMut (σ := Nat) (α := Unit) ⟨1, true⟩ (fun v => (v, ())) = none :=
  c9_exclusive_access_amended.1 Nat Unit ⟨1, true⟩ (fun v => (v, ())) rfl

/-- C10.  Implicit safety: every Whitespace token the tokenizer produces has
a character count of at least 1 and every Word token is non-empty; and the
division sites of the layout algorithm's partial-whitespace branch never
divide by zero — the modelled division-by-zero panic is unreachable from any
cursor-consistent state for any token stream, in particular for
tokenizer-produced ones. -/
theorem c10_no_division_by_zero :
    (∀ (s : List Char) (p : PToken × List Char), p ∈ tokenize s →
       (∀ n, p.1 = .whitespace n → 1 ≤ n) ∧ (∀ w, p.1 = .word w → w ≠ [])) ∧
    (∀ (meas : List Char → Nat) (sw : Nat) (align : HorizontalAlignment)
       (fuel : Nat) (st : LIState), st.cursor.pos ≤ st.cursor.width →
       process meas sw align fuel st ≠ .error .divByZero) := by
  constructor
  · intro s p hp
    have hm := tokenize_mem_spanMatches s.length s p hp
    constructor
    · intro n hn
      rw [hn] at hm
      simp only [spanMatches] at hm
      exact hm.2.1
    · intro w hw
      rw [hw] at hm
      simp only [spanMatches] at hm
      exact hm.2
  · intro meas sw align fuel st hpos
    exact (processSpec meas sw align fuel st hpos).1

/-- Witness for C10: the whitespace token of " a" has a positive count, and
a concrete layout run is free of the division panic. -/
theorem c10_no_division_by_zero_witness :
    1 ≤ 1 ∧
    process unitMeas 1 .left 3 (initLine 2 4 [.word ['a']]) ≠
      .error .divByZero :=
  ⟨(c10_no_division_by_zero.1 " a".toList (.whitespace 1, [' '])
      (by decide)).1 1 rfl,
   c10_no_division_by_zero.2 unitMeas 1 .left 3 (initLine 2 4 [.word ['a']])
     (Nat.zero_le _)⟩

end EmbeddedText
